import Mathlib

/- A Lean model of the OpenAPI document structure and its merge algorithm,
   translated from src/openapi.rs and src/paths.rs of the openapiv3 crate. -/

set_option autoImplicit false
set_option maxHeartbeats 1000000

/-- Modelled from the spec: vendor-extension values are opaque structured
values (serde_json::Value); the merge algorithm never inspects them, so they
are modelled as opaque strings. -/
abbrev Json := String

/-- An insertion-ordered string-keyed map (indexmap::IndexMap), modelled as an
association list; the map invariant (unique keys) is stated as a hypothesis
where a proof needs it. -/
abbrev IndexMapL (V : Type) := List (String × V)

/-- The vendor-extension carrier attached to most entities. -/
abbrev Extensions := IndexMapL Json

/-- Modelled from the spec: Reference-or-Inline indirection (the crate's
`RefOr<T>` type, outside src/): exactly one of `Reference(path)` or
`Item(T)`. -/
inductive RefOr (T : Type) where
  | Reference (path : String)
  | Item (item : T)
deriving DecidableEq

/-- Modelled from the spec: `as_item()` returns the wrapped value only in the
`Item` state, `None` otherwise. -/
def RefOr.as_item {T : Type} : RefOr T → Option T
  | .Reference _ => none
  | .Item t => some t

/-- Modelled from the spec: `as_mut()` is the mutable analogue of `as_item()`;
in this pure model it yields the same value. -/
def RefOr.as_mut {T : Type} : RefOr T → Option T
  | .Reference _ => none
  | .Item t => some t

/-- Modelled from the spec: `into_item()` consumes the wrapper and yields the
owned value only in the `Item` state. -/
def RefOr.into_item {T : Type} : RefOr T → Option T
  | .Reference _ => none
  | .Item t => some t

/-- Modelled from the spec: a Server is `{url, description?, variables}` and
its identity for deduplication is `url` alone. `vars` models the source's
server-variables field, whose name Lean reserves. -/
structure Server where
  url : String
  description : Option String
  vars : List (String × String)
deriving DecidableEq

/-- Modelled from the spec: an Operation is an opaque leaf carrying at least an
optional `operationId`. -/
structure Operation where
  operation_id : Option String
deriving DecidableEq

/-- Modelled from the spec: a Parameter is an external leaf; the merge engine
only reads its `name`. -/
structure Parameter where
  name : String
deriving DecidableEq

/-- Modelled from the spec: Info is an external metadata leaf; only its
extension carrier participates in the merge. -/
structure Info where
  extensions : Extensions
deriving DecidableEq

/-- Modelled from the spec: a Tag carries a `name` used as its dedup
identity. -/
structure Tag where
  name : String
  description : Option String
deriving DecidableEq

/-- Modelled from the spec: ExternalDocumentation keeps its own
description/url; its extensions participate in the merge. -/
structure ExternalDocumentation where
  description : Option String
  url : String
  extensions : Extensions
deriving DecidableEq

/-- Modelled from the spec: a SecurityRequirement is an ordered mapping from
scheme name to a list of scope strings. -/
abbrev SecurityRequirement := IndexMapL (List String)

/-- Describes the operations available on a single path (src/paths.rs). -/
structure PathItem where
  summary : Option String
  description : Option String
  get : Option Operation
  put : Option Operation
  post : Option Operation
  delete : Option Operation
  options : Option Operation
  head : Option Operation
  patch : Option Operation
  trace : Option Operation
  servers : List Server
  parameters : List (RefOr Parameter)
  extensions : Extensions
deriving DecidableEq

/-- The `Default::default()` value of `PathItem` (derived `Default` in
src/paths.rs). -/
def defaultPathItem : PathItem :=
  { summary := none, description := none, get := none, put := none,
    post := none, delete := none, options := none, head := none,
    patch := none, trace := none, servers := [], parameters := [],
    extensions := [] }

/-- Holds the relative paths to the individual endpoints (src/paths.rs). -/
structure Paths where
  paths : IndexMapL (RefOr PathItem)
  extensions : Extensions
deriving DecidableEq

/-- Modelled from the spec: the Component Registry is nine ordered name-keyed
collections of Reference-or-Inline entities plus an extension carrier; the
entity bodies are opaque to the merge engine. -/
structure Components where
  schemas : IndexMapL (RefOr Json)
  responses : IndexMapL (RefOr Json)
  parameters : IndexMapL (RefOr Json)
  examples : IndexMapL (RefOr Json)
  request_bodies : IndexMapL (RefOr Json)
  headers : IndexMapL (RefOr Json)
  security_schemes : IndexMapL (RefOr Json)
  links : IndexMapL (RefOr Json)
  callbacks : IndexMapL (RefOr Json)
  extensions : Extensions
deriving DecidableEq

/-- The root document object (src/openapi.rs). -/
structure OpenAPI where
  openapi : String
  info : Info
  servers : List Server
  paths : Paths
  components : Components
  security : List SecurityRequirement
  tags : List Tag
  external_docs : Option ExternalDocumentation
  extensions : Extensions
deriving DecidableEq

/-- The merge error type (src/openapi.rs): a single kind carrying a
human-readable message. -/
structure MergeError where
  msg : String
deriving DecidableEq

/-- `MergeError::new` (src/openapi.rs). -/
def MergeError.new (msg : String) : MergeError := ⟨msg⟩

/-- Modelled from the spec: HTTP methods (the `http` crate's `Method` type):
the eight slot methods plus CONNECT and arbitrary extension methods. -/
inductive Method where
  | GET
  | PUT
  | POST
  | DELETE
  | PATCH
  | HEAD
  | OPTIONS
  | TRACE
  | CONNECT
  | Extension (s : String)
deriving DecidableEq

/-- The `Debug` rendering of a `Method` used in the unsupported-method panic
message. -/
def reprMethod : Method → String
  | .GET => "GET"
  | .PUT => "PUT"
  | .POST => "POST"
  | .DELETE => "DELETE"
  | .PATCH => "PATCH"
  | .HEAD => "HEAD"
  | .OPTIONS => "OPTIONS"
  | .TRACE => "TRACE"
  | .CONNECT => "CONNECT"
  | .Extension s => s

/-- First-occurrence lookup in an association list (`IndexMap::get`). -/
def assocGet {V : Type} (k : String) : List (String × V) → Option V
  | [] => none
  | kv :: rest => if kv.1 = k then some kv.2 else assocGet k rest

/-- Replace the value at the first occurrence of a key, leaving the list
unchanged when the key is absent (`IndexMap::get_mut` followed by an
in-place write). -/
def assocSet {V : Type} (k : String) (v : V) : List (String × V) → List (String × V)
  | [] => []
  | kv :: rest => if kv.1 = k then (kv.1, v) :: rest else kv :: assocSet k v rest

/-- `IndexMap::contains_key`. -/
def hasKey {V : Type} (k : String) (m : List (String × V)) : Bool :=
  m.any (fun kv => kv.1 == k)

/-- `option_or` (src/openapi.rs): keep `original` if occupied, else adopt
`other`. -/
def option_or {T : Type} (original other : Option T) : Option T :=
  match original with
  | none => other
  | some x => some x

/-- `merge_vec` (src/openapi.rs): drop the elements of `other` matching some
element of `original` under `cmp`, then append the survivors. -/
def merge_vec {T : Type} (original other : List T) (cmp : T → T → Bool) : List T :=
  original ++ other.filter (fun o => !(original.any (fun r => cmp o r)))

/-- `merge_map` (src/openapi.rs): drop the entries of `other` whose key occurs
in `original`, then append the survivors. -/
def merge_map {V : Type} (original other : List (String × V)) : List (String × V) :=
  original ++ other.filter (fun kv => !(hasKey kv.1 original))

/-- `PathItem::iter` (src/paths.rs): the occupied method slots in source
order. -/
def PathItem.iter (p : PathItem) : List (String × Operation) :=
  ([("get", p.get), ("put", p.put), ("post", p.post), ("delete", p.delete),
    ("options", p.options), ("head", p.head), ("patch", p.patch),
    ("trace", p.trace)]).filterMap
    (fun mo => mo.2.map (fun op => (mo.1, op)))

/-- `PathItem::iter_mut` (src/paths.rs), modelled as the list of pairs the
mutable iterator visits. -/
def PathItem.iterMutPairs (p : PathItem) : List (String × Operation) :=
  ([("get", p.get), ("put", p.put), ("post", p.post), ("delete", p.delete),
    ("options", p.options), ("head", p.head), ("patch", p.patch),
    ("trace", p.trace)]).filterMap
    (fun mo => mo.2.map (fun op => (mo.1, op)))

/-- `impl IntoIterator for PathItem` (src/paths.rs): the owning iterator's
yielded pairs. -/
def PathItem.intoIterPairs (p : PathItem) : List (String × Operation) :=
  ([("get", p.get), ("put", p.put), ("post", p.post), ("delete", p.delete),
    ("options", p.options), ("head", p.head), ("patch", p.patch),
    ("trace", p.trace)]).filterMap
    (fun mo => mo.2.map (fun op => (mo.1, op)))

/-- Spec-side definition, following the spec's words: the fixed canonical
method order `get, put, post, delete, options, head, patch, trace`. -/
def canonicalMethodOrder : List String :=
  ["get", "put", "post", "delete", "options", "head", "patch", "trace"]

/-- Spec-side definition: the operation slot of a `PathItem` named by a
canonical method name. -/
def PathItem.methodSlot (p : PathItem) : String → Option Operation
  | "get" => p.get
  | "put" => p.put
  | "post" => p.post
  | "delete" => p.delete
  | "options" => p.options
  | "head" => p.head
  | "patch" => p.patch
  | "trace" => p.trace
  | _ => none

/-- Spec-side definition, following the spec's words: visiting the method
slots in the fixed canonical order and yielding exactly the occupied ones,
each paired with its method name. -/
def canonicalTraversal (p : PathItem) : List (String × Operation) :=
  canonicalMethodOrder.filterMap (fun m => (p.methodSlot m).map (fun op => (m, op)))

/-- Which methods have a dedicated slot arm in `Paths::insert_operation`. -/
def Method.isSupported : Method → Bool
  | .GET => true
  | .PUT => true
  | .POST => true
  | .DELETE => true
  | .PATCH => true
  | .HEAD => true
  | .OPTIONS => true
  | .TRACE => true
  | _ => false

/-- Spec-side definition: read the slot a supported method addresses. -/
def Method.slot (m : Method) (p : PathItem) : Option Operation :=
  match m with
  | .GET => p.get
  | .PUT => p.put
  | .POST => p.post
  | .DELETE => p.delete
  | .PATCH => p.patch
  | .HEAD => p.head
  | .OPTIONS => p.options
  | .TRACE => p.trace
  | _ => none

/-- Spec-side definition: write the slot a supported method addresses. -/
def Method.setSlot (m : Method) (p : PathItem) (op : Operation) : PathItem :=
  match m with
  | .GET => { p with get := some op }
  | .PUT => { p with put := some op }
  | .POST => { p with post := some op }
  | .DELETE => { p with delete := some op }
  | .PATCH => { p with patch := some op }
  | .HEAD => { p with head := some op }
  | .OPTIONS => { p with options := some op }
  | .TRACE => { p with trace := some op }
  | _ => p

/-- The slot-replacement match of `Paths::insert_operation` (src/paths.rs):
returns the previous occupant and the updated item, or the
unsupported-method panic message. -/
def replaceSlot (item : PathItem) (method : Method) (operation : Operation) :
    Except String (Option Operation × PathItem) :=
  match method with
  | .GET => .ok (item.get, { item with get := some operation })
  | .PUT => .ok (item.put, { item with put := some operation })
  | .POST => .ok (item.post, { item with post := some operation })
  | .DELETE => .ok (item.delete, { item with delete := some operation })
  | .PATCH => .ok (item.patch, { item with patch := some operation })
  | .HEAD => .ok (item.head, { item with head := some operation })
  | .OPTIONS => .ok (item.options, { item with options := some operation })
  | .TRACE => .ok (item.trace, { item with trace := some operation })
  | m => .error ("Unsupported method: " ++ reprMethod m)

/-- The body of `Paths::insert_operation` acting on the underlying entry
list: `entry(path).or_default()` keeps an existing entry in place or appends
a default inline item at the end, the entry must be inline (the
reference panic is modelled as an error), and the method's slot is
replaced. -/
def insertOpList (path : String) (method : Method) (operation : Operation) :
    List (String × RefOr PathItem) →
    Except String (Option Operation × List (String × RefOr PathItem))
  | [] =>
    match replaceSlot defaultPathItem method operation with
    | .error e => .error e
    | .ok (prev, item') => .ok (prev, [(path, RefOr.Item item')])
  | kv :: rest =>
    if kv.1 = path then
      match kv.2 with
      | .Reference _ => .error "Currently don't support references for PathItem"
      | .Item item =>
        match replaceSlot item method operation with
        | .error e => .error e
        | .ok (prev, item') => .ok (prev, (kv.1, RefOr.Item item') :: rest)
    else
      match insertOpList path method operation rest with
      | .error e => .error e
      | .ok (prev, rest') => .ok (prev, kv :: rest')

/-- `Paths::insert_operation` (src/paths.rs). -/
def Paths.insert_operation (ps : Paths) (path : String) (method : Method)
    (operation : Operation) : Except String (Option Operation × Paths) :=
  match insertOpList path method operation ps.paths with
  | .error e => .error e
  | .ok (prev, l') => .ok (prev, { ps with paths := l' })

/-- Spec-side definition: the inline item currently stored at a path, or the
default item that `or_default` would create. -/
def Paths.currentInline (ps : Paths) (path : String) : PathItem :=
  match assocGet path ps.paths with
  | some (RefOr.Item it) => it
  | _ => defaultPathItem

/-- `OpenAPI::operations` (src/openapi.rs): every `(path, method, op, item)`
over inline path items, skipping reference entries. -/
def OpenAPI.operations (api : OpenAPI) :
    List (String × String × Operation × PathItem) :=
  (api.paths.paths.filterMap
      (fun pi => pi.2.as_item.map (fun it => (pi.1, it)))).flatMap
    (fun pit => pit.2.iter.map (fun mo => (pit.1, mo.1, mo.2, pit.2)))

/-- `OpenAPI::operations_mut` (src/openapi.rs), modelled as the list of
`(path, method, op)` the mutable iterator visits. -/
def OpenAPI.operations_mut (api : OpenAPI) :
    List (String × String × Operation) :=
  (api.paths.paths.filterMap
      (fun pi => pi.2.as_mut.map (fun it => (pi.1, it)))).flatMap
    (fun pit => pit.2.iterMutPairs.map (fun mo => (pit.1, mo.1, mo.2)))

/-- The linear scan of `OpenAPI::get_operation`: the `unwrap` of a missing
`operationId` is modelled as the `Except` error. -/
def findOp (oid : String) :
    List (String × String × Operation × PathItem) →
    Except Unit (Option (Operation × PathItem))
  | [] => .ok none
  | t :: rest =>
    match t.2.2.1.operation_id with
    | none => .error ()
    | some s => if s = oid then .ok (some (t.2.2.1, t.2.2.2)) else findOp oid rest

/-- The linear scan of `OpenAPI::get_operation_mut`, with the `unwrap` of a
missing `operationId` modelled as the `Except` error. -/
def findOpMut (oid : String) :
    List (String × String × Operation) → Except Unit (Option Operation)
  | [] => .ok none
  | t :: rest =>
    match t.2.2.operation_id with
    | none => .error ()
    | some s => if s = oid then .ok (some t.2.2) else findOpMut oid rest

/-- `OpenAPI::get_operation` (src/openapi.rs). -/
def OpenAPI.get_operation (api : OpenAPI) (operation_id : String) :
    Except Unit (Option (Operation × PathItem)) :=
  findOp operation_id api.operations

/-- `OpenAPI::get_operation_mut` (src/openapi.rs). -/
def OpenAPI.get_operation_mut (api : OpenAPI) (operation_id : String) :
    Except Unit (Option Operation) :=
  findOpMut operation_id api.operations_mut

/-- The per-pair parameter validation loop of `OpenAPI::merge`
(src/openapi.rs lines 129-135): both sides must be inline and carry equal
names. -/
def checkParams (path : String) :
    List (RefOr Parameter × RefOr Parameter) → Except MergeError Unit
  | [] => .ok ()
  | ab :: rest =>
    match ab.1.as_item with
    | none => .error (MergeError.new "Parameter references are not yet supported. Please open an issue if you need this feature.")
    | some a =>
      match ab.2.as_item with
      | none => .error (MergeError.new "Parameter references are not yet supported. Please open an issue if you need this feature.")
      | some b =>
        if a.name ≠ b.name then
          .error (MergeError.new ("PathItem " ++ path ++ " parameter " ++ a.name ++ " does not have the same name as " ++ b.name))
        else checkParams path rest

/-- The shared-path body of the merge loop (src/openapi.rs lines 114-135):
slot-wise `option_or`, path-level server and extension union, then parameter
validation against the incoming item. -/
def mergePathItems (path : String) (self_item other_item : PathItem) :
    Except MergeError PathItem :=
  let merged : PathItem := { self_item with
    get := option_or self_item.get other_item.get,
    put := option_or self_item.put other_item.put,
    post := option_or self_item.post other_item.post,
    delete := option_or self_item.delete other_item.delete,
    options := option_or self_item.options other_item.options,
    head := option_or self_item.head other_item.head,
    patch := option_or self_item.patch other_item.patch,
    trace := option_or self_item.trace other_item.trace,
    servers := merge_vec self_item.servers other_item.servers (fun a b => a.url == b.url),
    extensions := merge_map self_item.extensions other_item.extensions }
  if merged.parameters.length ≠ other_item.parameters.length then
    .error (MergeError.new ("PathItem " ++ path ++ " parameters do not have the same length"))
  else
    match checkParams path (merged.parameters.zip other_item.parameters) with
    | .error e => .error e
    | .ok _ => .ok merged

/-- One iteration of the merge loop over `other.paths` (src/openapi.rs lines
110-139): the incoming entry must be inline; a shared path requires the
original entry inline and merges in place, a new path is appended
unchanged. -/
def mergeStep (acc : List (String × RefOr PathItem))
    (e : String × RefOr PathItem) :
    Except MergeError (List (String × RefOr PathItem)) :=
  match e.2.into_item with
  | none => .error (MergeError.new "PathItem references are not yet supported. Please opena n issue if you need this feature.")
  | some item =>
    match assocGet e.1 acc with
    | some r =>
      match r.as_mut with
      | none => .error (MergeError.new "PathItem references are not yet supported. Please open an issue if you need this feature.")
      | some self_item =>
        match mergePathItems e.1 self_item item with
        | .error err => .error err
        | .ok merged => .ok (assocSet e.1 (RefOr.Item merged) acc)
    | none => .ok (acc ++ [(e.1, RefOr.Item item)])

/-- The `for (path, item) in other.paths` loop of `OpenAPI::merge`, folding
`mergeStep` over the incoming entries in iteration order. -/
def mergePathsFold (acc : List (String × RefOr PathItem)) :
    List (String × RefOr PathItem) →
    Except MergeError (List (String × RefOr PathItem))
  | [] => .ok acc
  | e :: rest =>
    match mergeStep acc e with
    | .error err => .error err
    | .ok acc' => mergePathsFold acc' rest

/-- `OpenAPI::merge` (src/openapi.rs lines 105-171): fold `other` into `self`
field by field under the original-wins policy. -/
def OpenAPI.merge (self other : OpenAPI) : Except MergeError OpenAPI :=
  match mergePathsFold self.paths.paths other.paths.paths with
  | .error e => .error e
  | .ok newPaths =>
    .ok {
      openapi := self.openapi,
      info := { self.info with
        extensions := merge_map self.info.extensions other.info.extensions },
      servers := merge_vec self.servers other.servers (fun a b => a.url == b.url),
      paths := { paths := newPaths, extensions := self.paths.extensions },
      components := {
        schemas := merge_map self.components.schemas other.components.schemas,
        responses := merge_map self.components.responses other.components.responses,
        parameters := merge_map self.components.parameters other.components.parameters,
        examples := merge_map self.components.examples other.components.examples,
        request_bodies := merge_map self.components.request_bodies other.components.request_bodies,
        headers := merge_map self.components.headers other.components.headers,
        security_schemes := merge_map self.components.security_schemes other.components.security_schemes,
        links := merge_map self.components.links other.components.links,
        callbacks := merge_map self.components.callbacks other.components.callbacks,
        extensions := merge_map self.components.extensions other.components.extensions },
      security := merge_vec self.security other.security
        (fun a b => a.length == b.length && a.all (fun kv => hasKey kv.1 b)),
      tags := merge_vec self.tags other.tags (fun a b => a.name == b.name),
      external_docs :=
        (match self.external_docs with
         | some ext => some { ext with extensions :=
             (match other.external_docs with
              | some o => merge_map ext.extensions o.extensions
              | none => ext.extensions) }
         | none => other.external_docs),
      extensions := merge_map self.extensions other.extensions }

/-- `OpenAPI::merge_overwrite` (src/openapi.rs lines 175-177): defined as the
mirror image of `merge`. -/
def OpenAPI.merge_overwrite (self other : OpenAPI) : Except MergeError OpenAPI :=
  OpenAPI.merge other self

/-- `Default::default()` for `OpenAPI` (src/openapi.rs lines 180-195). -/
def defaultOpenAPI : OpenAPI :=
  { openapi := "3.0.3",
    info := { extensions := [] },
    servers := [],
    paths := { paths := [], extensions := [] },
    components := {
      schemas := [], responses := [], parameters := [],
      examples := [], request_bodies := [], headers := [],
      security_schemes := [], links := [], callbacks := [], extensions := [] },
    security := [],
    tags := [],
    external_docs := none,
    extensions := [] }

/-- Whether an `Except` computation succeeded. -/
def exceptIsOk {E A : Type} : Except E A → Bool
  | .ok _ => true
  | .error _ => false

/-- The success value of an `Except` computation, if any. -/
def exceptValue {E A : Type} : Except E A → Option A
  | .ok a => some a
  | .error _ => none

/-- The document produced by a successful merge (the default document when
the merge failed); used to state closed concrete facts about merge
results. -/
def mergeResult (a b : OpenAPI) : OpenAPI :=
  (exceptValue (OpenAPI.merge a b)).getD defaultOpenAPI

deriving instance DecidableEq for Except

/-- Spec-side definition: the inline item at a path in an entry list, or the
default item that `or_default` would create; `Paths.currentInline` restated
at the list level. -/
def currentItemL (path : String) (l : List (String × RefOr PathItem)) : PathItem :=
  match assocGet path l with
  | some (RefOr.Item it) => it
  | _ => defaultPathItem

/-- A path item with just a GET operation and a parameter list; used by the
concrete example documents below. -/
def itemWith (g : Option Operation) (ps : List (RefOr Parameter)) : PathItem :=
  { defaultPathItem with get := g, parameters := ps }

/-- Example operation with identifier `listPets`. -/
def opList : Operation := ⟨some "listPets"⟩

/-- Example operation with identifier `createPet`. -/
def opCreate : Operation := ⟨some "createPet"⟩

/-- C1 counterexample data: an incoming document whose only path entry is a
reference, at a path the original does not have. -/
def exB1 : OpenAPI :=
  { defaultOpenAPI with paths := ⟨[("/p", RefOr.Reference "#/components/x")], []⟩ }

/-- C1 witness data: an incoming document with a single inline path `/q` the
original does not have. -/
def exB1w : OpenAPI :=
  { defaultOpenAPI with paths := ⟨[("/q", RefOr.Item (itemWith (some opList) []))], []⟩ }

/-- C2 counterexample data: a document whose path `/p` carries a reference
parameter. -/
def exA2c : OpenAPI :=
  { defaultOpenAPI with
    paths := ⟨[("/p", RefOr.Item (itemWith none [RefOr.Reference "#/components/parameters/pr"]))], []⟩ }

/-- C2 witness data: a document with inline paths, inline parameters,
servers, tags, security and external docs. -/
def exA2w : OpenAPI :=
  { defaultOpenAPI with
    paths := ⟨[("/pets", RefOr.Item (itemWith (some opList) [RefOr.Item ⟨"limit"⟩]))], [("x-k", "v")]⟩,
    servers := [⟨"http://localhost", some "A", []⟩],
    tags := [⟨"pet", some "d1"⟩],
    security := [[("oauth", ["read"])]],
    external_docs := some ⟨some "d", "http://example.com", [("x-a", "1")]⟩,
    extensions := [("x-top", "t")] }

/-- C4 counterexample data: an incoming document listing the same server url
twice. -/
def exB4 : OpenAPI :=
  { defaultOpenAPI with servers := [⟨"u", none, []⟩, ⟨"u", none, []⟩] }

/-- C4 witness data: original with one server. -/
def exA4w : OpenAPI :=
  { defaultOpenAPI with servers := [⟨"http://localhost", some "A", []⟩] }

/-- C4 witness data: incoming with a duplicate of the original's url and one
fresh url. -/
def exB4w : OpenAPI :=
  { defaultOpenAPI with
    servers := [⟨"http://localhost", some "B", []⟩, ⟨"http://other", none, []⟩] }

/-- C5 counterexample data: original with paths `/a` and `/b`. -/
def exA5c : OpenAPI :=
  { defaultOpenAPI with paths := ⟨[
      ("/a", RefOr.Item (itemWith none [RefOr.Item ⟨"x"⟩])),
      ("/b", RefOr.Item (itemWith none [RefOr.Item ⟨"limit"⟩]))], []⟩ }

/-- C5 counterexample data: incoming whose `/a` has a parameter-name
mismatch with the original and whose `/b` has a parameter-length
mismatch. -/
def exB5c : OpenAPI :=
  { defaultOpenAPI with paths := ⟨[
      ("/a", RefOr.Item (itemWith none [RefOr.Item ⟨"y"⟩])),
      ("/b", RefOr.Item (itemWith none [RefOr.Item ⟨"limit"⟩, RefOr.Item ⟨"offset"⟩]))], []⟩ }

/-- C5 witness data: original whose `/pets` parameters are `[limit]`. -/
def exA5w : OpenAPI :=
  { defaultOpenAPI with
    paths := ⟨[("/pets", RefOr.Item (itemWith none [RefOr.Item ⟨"limit"⟩]))], []⟩ }

/-- C5 witness data: incoming whose `/pets` parameters are
`[limit, offset]`. -/
def exB5w : OpenAPI :=
  { defaultOpenAPI with
    paths := ⟨[("/pets", RefOr.Item (itemWith none [RefOr.Item ⟨"limit"⟩, RefOr.Item ⟨"offset"⟩]))], []⟩ }

/-- C6 witness data: original whose `/pets` has a GET operation and
parameters `[limit]`. -/
def exA6w : OpenAPI :=
  { defaultOpenAPI with
    paths := ⟨[("/pets", RefOr.Item (itemWith (some opList) [RefOr.Item ⟨"limit"⟩]))], []⟩ }

/-- C6 witness data: incoming whose `/pets` has parameters `[limit]` with a
different parameter list object (inline, same name). -/
def exB6w : OpenAPI :=
  { defaultOpenAPI with
    paths := ⟨[("/pets", RefOr.Item (itemWith none [RefOr.Item ⟨"limit"⟩]))], []⟩ }

/-- C7 witness data: original with `/pets` exposing only GET `listPets`. -/
def exA7 : OpenAPI :=
  { defaultOpenAPI with
    paths := ⟨[("/pets", RefOr.Item { defaultPathItem with get := some opList })], []⟩ }

/-- C7 witness data: incoming with `/pets` exposing only POST `createPet`. -/
def exB7 : OpenAPI :=
  { defaultOpenAPI with
    paths := ⟨[("/pets", RefOr.Item { defaultPathItem with post := some opCreate })], []⟩ }

/-- C9 witness data: a document with two operations, both carrying non-empty
identifiers. -/
def exApi9 : OpenAPI :=
  { defaultOpenAPI with
    paths := ⟨[("/pets", RefOr.Item { defaultPathItem with get := some opList, post := some opCreate })], []⟩ }

/-- C10 witness data: a paths map with one inline entry at `/p` whose GET
slot is occupied by `listPets`. -/
def exPs10 : Paths :=
  ⟨[("/p", RefOr.Item { defaultPathItem with get := some opList })], []⟩

theorem option_or_self {T : Type} (o : Option T) : option_or o o = o := by
  cases o <;> rfl

theorem hasKey_of_mem {V : Type} {kv : String × V} {m : List (String × V)}
    (h : kv ∈ m) : hasKey kv.1 m = true := by
  simp only [hasKey, List.any_eq_true]
  exact ⟨kv, h, by simp⟩

theorem merge_map_self {V : Type} (m : List (String × V)) : merge_map m m = m := by
  have h : m.filter (fun kv => !(hasKey kv.1 m)) = [] := by
    apply List.filter_eq_nil_iff.mpr
    intro kv hm
    simp [hasKey_of_mem hm]
  simp [merge_map, h]

theorem merge_vec_self {T : Type} (v : List T) (cmp : T → T → Bool)
    (h : ∀ x ∈ v, cmp x x = true) : merge_vec v v cmp = v := by
  have hf : v.filter (fun o => !(v.any (fun r => cmp o r))) = [] := by
    apply List.filter_eq_nil_iff.mpr
    intro x hx
    simp only [Bool.not_eq_true', Bool.not_eq_false, List.any_eq_true]
    exact ⟨x, hx, h x hx⟩
  simp [merge_vec, hf]

theorem assocGet_mem {V : Type} {k : String} {v : V} :
    ∀ {l : List (String × V)}, assocGet k l = some v → (k, v) ∈ l := by
  intro l
  induction l with
  | nil => intro h; simp [assocGet] at h
  | cons kv rest ih =>
    obtain ⟨k1, v1⟩ := kv
    intro h
    simp only [assocGet] at h
    by_cases heq : k1 = k
    · simp [heq] at h
      subst heq
      subst h
      exact List.mem_cons_self _ _
    · simp [heq] at h
      exact List.mem_cons_of_mem _ (ih h)

theorem assocGet_of_nodup_mem {V : Type} :
    ∀ {l : List (String × V)}, (l.map Prod.fst).Nodup →
    ∀ {k : String} {v : V}, (k, v) ∈ l → assocGet k l = some v := by
  intro l
  induction l with
  | nil => intro _ k v hm; simp at hm
  | cons kv rest ih =>
    intro hnd k v hm
    simp only [List.map_cons, List.nodup_cons] at hnd
    rcases List.mem_cons.mp hm with h | h
    · cases h
      simp [assocGet]
    · have hne : kv.1 ≠ k := by
        intro he
        exact hnd.1 (he ▸ (List.mem_map.mpr ⟨(k, v), h, rfl⟩))
      simp only [assocGet, if_neg hne]
      exact ih hnd.2 h

theorem assocGet_append_some {V : Type} {k : String} {v : V} :
    ∀ {l1 : List (String × V)} (l2 : List (String × V)),
    assocGet k l1 = some v → assocGet k (l1 ++ l2) = some v := by
  intro l1
  induction l1 with
  | nil => intro l2 h; simp [assocGet] at h
  | cons kv rest ih =>
    intro l2 h
    simp only [assocGet] at h ⊢
    split at h
    · rename_i heq
      simp only [List.cons_append, assocGet, if_pos heq]
      exact h
    · rename_i heq
      simp only [List.cons_append, assocGet, if_neg heq]
      exact ih l2 h

theorem assocGet_append_none {V : Type} {k : String} :
    ∀ {l1 : List (String × V)} (l2 : List (String × V)),
    assocGet k l1 = none → assocGet k (l1 ++ l2) = assocGet k l2 := by
  intro l1
  induction l1 with
  | nil => intro l2 _; simp
  | cons kv rest ih =>
    intro l2 h
    simp only [assocGet] at h
    split at h
    · cases h
    · rename_i heq
      simp only [List.cons_append, assocGet, if_neg heq]
      exact ih l2 h

theorem assocGet_assocSet_self {V : Type} {k : String} (v : V) :
    ∀ {l : List (String × V)} {w : V}, assocGet k l = some w →
    assocGet k (assocSet k v l) = some v := by
  intro l
  induction l with
  | nil => intro w h; simp [assocGet] at h
  | cons kv rest ih =>
    intro w h
    simp only [assocGet] at h
    simp only [assocSet]
    split at h
    · rename_i heq
      simp [assocGet, heq]
    · rename_i heq
      simp only [if_neg heq, assocGet, if_neg heq]
      exact ih h

theorem assocGet_assocSet_ne {V : Type} {k k' : String} (hne : k' ≠ k) (v : V) :
    ∀ (l : List (String × V)),
    assocGet k' (assocSet k v l) = assocGet k' l := by
  intro l
  induction l with
  | nil => simp [assocSet]
  | cons kv rest ih =>
    obtain ⟨k1, v1⟩ := kv
    have hne2 : ¬ (k = k') := fun h => hne h.symm
    by_cases hk : k1 = k
    · simp [assocSet, assocGet, hk, hne2]
    · by_cases hk2 : k1 = k'
      · simp [assocSet, assocGet, hk, hk2, hne]
      · simp [assocSet, assocGet, hk, hk2, ih]

theorem assocSet_self {V : Type} {k : String} :
    ∀ {l : List (String × V)} {v : V}, assocGet k l = some v →
    assocSet k v l = l := by
  intro l
  induction l with
  | nil => intro v h; simp [assocGet] at h
  | cons kv rest ih =>
    obtain ⟨k1, v1⟩ := kv
    intro v h
    simp only [assocGet] at h
    by_cases heq : k1 = k
    · simp [heq] at h
      simp [assocSet, heq, h]
    · simp [heq] at h
      simp [assocSet, heq, ih h]

theorem checkParams_self (path : String) :
    ∀ (ps : List (RefOr Parameter)), (∀ q ∈ ps, ∃ par, q = RefOr.Item par) →
    checkParams path (ps.zip ps) = .ok () := by
  intro ps
  induction ps with
  | nil => intro _; rfl
  | cons q rest ih =>
    intro h
    obtain ⟨par, hq⟩ := h q (List.mem_cons_self _ _)
    subst hq
    simp only [List.zip_cons_cons, checkParams, RefOr.as_item]
    rw [if_neg (by simp)]
    exact ih (fun q hq => h q (List.mem_cons_of_mem _ hq))

theorem checkParams_ok_mem (path : String) :
    ∀ (ps : List (RefOr Parameter × RefOr Parameter)), checkParams path ps = Except.ok () →
    ∀ ab ∈ ps, ∃ pa pb, ab.1 = RefOr.Item pa ∧ ab.2 = RefOr.Item pb ∧ pa.name = pb.name := by
  intro ps
  induction ps with
  | nil => intro _ ab hab; simp at hab
  | cons ab0 rest ih =>
    obtain ⟨a0, b0⟩ := ab0
    intro h ab hab
    cases a0 with
    | Reference r => simp [checkParams, RefOr.as_item] at h
    | Item pa =>
      cases b0 with
      | Reference r => simp [checkParams, RefOr.as_item] at h
      | Item pb =>
        simp only [checkParams, RefOr.as_item] at h
        by_cases hn : pa.name = pb.name
        · rw [if_neg (not_not_intro hn)] at h
          rcases List.mem_cons.mp hab with he | ht
          · subst he
            exact ⟨pa, pb, rfl, rfl, hn⟩
          · exact ih h ab ht
        · rw [if_pos hn] at h
          exact Except.noConfusion h

theorem mergePathItems_ok_inv {path : String} {ia ib m : PathItem}
    (h : mergePathItems path ia ib = .ok m) :
    m = { ia with
      get := option_or ia.get ib.get, put := option_or ia.put ib.put,
      post := option_or ia.post ib.post, delete := option_or ia.delete ib.delete,
      options := option_or ia.options ib.options, head := option_or ia.head ib.head,
      patch := option_or ia.patch ib.patch, trace := option_or ia.trace ib.trace,
      servers := merge_vec ia.servers ib.servers (fun a b => a.url == b.url),
      extensions := merge_map ia.extensions ib.extensions }
    ∧ ia.parameters.length = ib.parameters.length
    ∧ checkParams path (ia.parameters.zip ib.parameters) = .ok () := by
  simp only [mergePathItems] at h
  by_cases hlen : ia.parameters.length = ib.parameters.length
  · rw [if_neg (not_not_intro hlen)] at h
    cases hc : checkParams path (ia.parameters.zip ib.parameters) with
    | error e => rw [hc] at h; exact Except.noConfusion h
    | ok u =>
      cases u
      rw [hc] at h
      injection h with h2
      exact ⟨h2.symm, hlen, rfl⟩
  · rw [if_pos hlen] at h
    exact Except.noConfusion h

theorem mergePathItems_self (path : String) (it : PathItem)
    (hp : ∀ q ∈ it.parameters, ∃ par, q = RefOr.Item par) :
    mergePathItems path it it = .ok it := by
  have hck := checkParams_self path it.parameters hp
  have hs : merge_vec it.servers it.servers (fun a b => a.url == b.url) = it.servers :=
    merge_vec_self _ _ (fun x _ => by simp)
  simp only [mergePathItems, option_or_self, merge_map_self, hs]
  rw [if_neg (not_not_intro rfl), hck]

theorem mergeStep_reference (acc : List (String × RefOr PathItem)) (p r : String) :
    mergeStep acc (p, RefOr.Reference r) =
      .error (MergeError.new "PathItem references are not yet supported. Please opena n issue if you need this feature.") := rfl

theorem mergeStep_insert {acc : List (String × RefOr PathItem)} {p : String}
    (ib : PathItem) (h : assocGet p acc = none) :
    mergeStep acc (p, RefOr.Item ib) = .ok (acc ++ [(p, RefOr.Item ib)]) := by
  simp only [mergeStep, RefOr.into_item, h]

theorem mergeStep_shared_ref {acc : List (String × RefOr PathItem)} {p r' : String}
    (ib : PathItem) (h : assocGet p acc = some (RefOr.Reference r')) :
    mergeStep acc (p, RefOr.Item ib) =
      .error (MergeError.new "PathItem references are not yet supported. Please open an issue if you need this feature.") := by
  simp only [mergeStep, RefOr.into_item, h, RefOr.as_mut]

theorem mergeStep_shared_ok {acc : List (String × RefOr PathItem)} {p : String}
    {ia ib m : PathItem} (h : assocGet p acc = some (RefOr.Item ia))
    (hm : mergePathItems p ia ib = .ok m) :
    mergeStep acc (p, RefOr.Item ib) = .ok (assocSet p (RefOr.Item m) acc) := by
  simp only [mergeStep, RefOr.into_item, h, RefOr.as_mut, hm]

theorem mergeStep_shared_err {acc : List (String × RefOr PathItem)} {p : String}
    {ia ib : PathItem} {e : MergeError}
    (h : assocGet p acc = some (RefOr.Item ia))
    (hm : mergePathItems p ia ib = .error e) :
    mergeStep acc (p, RefOr.Item ib) = .error e := by
  simp only [mergeStep, RefOr.into_item, h, RefOr.as_mut, hm]

theorem mergeStep_ok_inv {acc : List (String × RefOr PathItem)}
    {e : String × RefOr PathItem} {acc' : List (String × RefOr PathItem)}
    (h : mergeStep acc e = .ok acc') :
    ∃ item, e.2 = RefOr.Item item ∧
      ((assocGet e.1 acc = none ∧ acc' = acc ++ [(e.1, RefOr.Item item)]) ∨
       (∃ self_item merged, assocGet e.1 acc = some (RefOr.Item self_item) ∧
         mergePathItems e.1 self_item item = .ok merged ∧
         acc' = assocSet e.1 (RefOr.Item merged) acc)) := by
  obtain ⟨p, v⟩ := e
  cases v with
  | Reference r => rw [mergeStep_reference] at h; exact Except.noConfusion h
  | Item item =>
    refine ⟨item, rfl, ?_⟩
    cases hg : assocGet p acc with
    | none =>
      rw [mergeStep_insert item hg] at h
      injection h with h2
      exact Or.inl ⟨rfl, h2.symm⟩
    | some r =>
      cases r with
      | Reference r' =>
        rw [mergeStep_shared_ref item hg] at h
        exact Except.noConfusion h
      | Item ia =>
        cases hm : mergePathItems p ia item with
        | error err => rw [mergeStep_shared_err hg hm] at h; exact Except.noConfusion h
        | ok merged =>
          rw [mergeStep_shared_ok hg hm] at h
          injection h with h2
          exact Or.inr ⟨ia, merged, rfl, hm, h2.symm⟩

theorem mergeStep_get_other {acc : List (String × RefOr PathItem)}
    {e : String × RefOr PathItem} {acc' : List (String × RefOr PathItem)}
    (h : mergeStep acc e = .ok acc') {p : String} (hne : p ≠ e.1) :
    assocGet p acc' = assocGet p acc := by
  obtain ⟨item, hi, hcase | hcase⟩ := mergeStep_ok_inv h
  · obtain ⟨hg, he⟩ := hcase
    subst he
    cases hgp : assocGet p acc with
    | some w => exact assocGet_append_some _ hgp
    | none =>
      rw [assocGet_append_none _ hgp]
      have hne2 : e.1 ≠ p := fun hh => hne hh.symm
      simp [assocGet, hne2]
  · obtain ⟨si, mg, hg, hm, he⟩ := hcase
    subst he
    exact assocGet_assocSet_ne hne _ acc

theorem fold_preserve {p : String} :
    ∀ (L acc acc' : List (String × RefOr PathItem)),
    p ∉ L.map Prod.fst → mergePathsFold acc L = .ok acc' →
    assocGet p acc' = assocGet p acc := by
  intro L
  induction L with
  | nil =>
    intro acc acc' _ h
    simp only [mergePathsFold] at h
    injection h with h2
    rw [h2]
  | cons e rest ih =>
    intro acc acc' hnm h
    simp only [List.map_cons, List.mem_cons] at hnm
    push_neg at hnm
    obtain ⟨hne, hnm2⟩ := hnm
    simp only [mergePathsFold] at h
    cases hs : mergeStep acc e with
    | error err => rw [hs] at h; exact Except.noConfusion h
    | ok acc1 =>
      rw [hs] at h
      rw [ih acc1 acc' hnm2 h]
      exact mergeStep_get_other hs hne

theorem fold_err_ref_entry {p r : String} :
    ∀ (L acc : List (String × RefOr PathItem)), (p, RefOr.Reference r) ∈ L →
    exceptIsOk (mergePathsFold acc L) = false := by
  intro L
  induction L with
  | nil => intro acc h; simp at h
  | cons e rest ih =>
    intro acc hm
    simp only [mergePathsFold]
    rcases List.mem_cons.mp hm with he | ht
    · rw [← he, mergeStep_reference]
      rfl
    · cases hs : mergeStep acc e with
      | error err => rfl
      | ok acc1 => exact ih acc1 ht

theorem fold_err_shared_ref {p r' : String} :
    ∀ (L acc : List (String × RefOr PathItem)), (L.map Prod.fst).Nodup →
    ∀ ib : PathItem, (p, RefOr.Item ib) ∈ L →
    assocGet p acc = some (RefOr.Reference r') →
    exceptIsOk (mergePathsFold acc L) = false := by
  intro L
  induction L with
  | nil => intro acc _ ib h _; simp at h
  | cons e rest ih =>
    intro acc hnd ib hm hg
    simp only [List.map_cons, List.nodup_cons] at hnd
    simp only [mergePathsFold]
    rcases List.mem_cons.mp hm with he | ht
    · rw [← he, mergeStep_shared_ref ib hg]
      rfl
    · have hne : p ≠ e.1 := by
        intro hpe
        exact hnd.1 (hpe ▸ List.mem_map.mpr ⟨(p, RefOr.Item ib), ht, rfl⟩)
      cases hs : mergeStep acc e with
      | error err => rfl
      | ok acc1 =>
        exact ih acc1 hnd.2 ib ht (by rw [mergeStep_get_other hs hne]; exact hg)

theorem fold_ok_insert {p : String} {ib : PathItem} :
    ∀ (L acc acc' : List (String × RefOr PathItem)), (L.map Prod.fst).Nodup →
    (p, RefOr.Item ib) ∈ L → assocGet p acc = none →
    mergePathsFold acc L = .ok acc' →
    assocGet p acc' = some (RefOr.Item ib) := by
  intro L
  induction L with
  | nil => intro acc acc' _ hm _ _; simp at hm
  | cons e rest ih =>
    intro acc acc' hnd hm hg h
    simp only [List.map_cons, List.nodup_cons] at hnd
    simp only [mergePathsFold] at h
    rcases List.mem_cons.mp hm with he | ht
    · rw [← he] at h hnd
      rw [mergeStep_insert ib hg] at h
      have hnp : p ∉ rest.map Prod.fst := by
        simpa using hnd.1
      have hpre := fold_preserve rest (acc ++ [(p, RefOr.Item ib)]) acc' hnp h
      rw [hpre, assocGet_append_none _ hg]
      simp [assocGet]
    · have hne : p ≠ e.1 := by
        intro hpe
        exact hnd.1 (hpe ▸ List.mem_map.mpr ⟨(p, RefOr.Item ib), ht, rfl⟩)
      cases hs : mergeStep acc e with
      | error err => rw [hs] at h; exact Except.noConfusion h
      | ok acc1 =>
        rw [hs] at h
        exact ih acc1 acc' hnd.2 ht
          (by rw [mergeStep_get_other hs hne]; exact hg) h

theorem fold_ok_shared {p : String} {ia ib : PathItem} :
    ∀ (L acc acc' : List (String × RefOr PathItem)), (L.map Prod.fst).Nodup →
    (p, RefOr.Item ib) ∈ L → assocGet p acc = some (RefOr.Item ia) →
    mergePathsFold acc L = .ok acc' →
    ∃ m, mergePathItems p ia ib = .ok m ∧ assocGet p acc' = some (RefOr.Item m) := by
  intro L
  induction L with
  | nil => intro acc acc' _ hm _ _; simp at hm
  | cons e rest ih =>
    intro acc acc' hnd hm hg h
    simp only [List.map_cons, List.nodup_cons] at hnd
    simp only [mergePathsFold] at h
    rcases List.mem_cons.mp hm with he | ht
    · rw [← he] at h hnd
      cases hm2 : mergePathItems p ia ib with
      | error err =>
        rw [mergeStep_shared_err hg hm2] at h
        exact Except.noConfusion h
      | ok m =>
        rw [mergeStep_shared_ok hg hm2] at h
        have hnp : p ∉ rest.map Prod.fst := by
          simpa using hnd.1
        have hpre := fold_preserve rest (assocSet p (RefOr.Item m) acc) acc' hnp h
        refine ⟨m, rfl, ?_⟩
        rw [hpre]
        exact assocGet_assocSet_self _ hg
    · have hne : p ≠ e.1 := by
        intro hpe
        exact hnd.1 (hpe ▸ List.mem_map.mpr ⟨(p, RefOr.Item ib), ht, rfl⟩)
      cases hs : mergeStep acc e with
      | error err => rw [hs] at h; exact Except.noConfusion h
      | ok acc1 =>
        rw [hs] at h
        exact ih acc1 acc' hnd.2 ht
          (by rw [mergeStep_get_other hs hne]; exact hg) h

theorem fold_self :
    ∀ (L acc : List (String × RefOr PathItem)),
    (∀ e ∈ L, ∃ it, e.2 = RefOr.Item it ∧ ∀ q ∈ it.parameters, ∃ par, q = RefOr.Item par) →
    (∀ e ∈ L, assocGet e.1 acc = some e.2) →
    mergePathsFold acc L = .ok acc := by
  intro L
  induction L with
  | nil => intro acc _ _; rfl
  | cons e rest ih =>
    intro acc hinl hget
    obtain ⟨p, v⟩ := e
    obtain ⟨it, hit, hp⟩ := hinl (p, v) (List.mem_cons_self _ _)
    simp only at hit
    subst hit
    have hg : assocGet p acc = some (RefOr.Item it) :=
      hget (p, RefOr.Item it) (List.mem_cons_self _ _)
    have hms : mergeStep acc (p, RefOr.Item it) = .ok acc := by
      rw [mergeStep_shared_ok hg (mergePathItems_self p it hp)]
      rw [assocSet_self hg]
    simp only [mergePathsFold, hms]
    exact ih acc (fun e2 h2 => hinl e2 (List.mem_cons_of_mem _ h2))
      (fun e2 h2 => hget e2 (List.mem_cons_of_mem _ h2))

theorem merge_ok_inv {A B C : OpenAPI} (h : OpenAPI.merge A B = .ok C) :
    ∃ np, mergePathsFold A.paths.paths B.paths.paths = .ok np ∧
      C = { openapi := A.openapi,
            info := { A.info with
              extensions := merge_map A.info.extensions B.info.extensions },
            servers := merge_vec A.servers B.servers (fun a b => a.url == b.url),
            paths := { paths := np, extensions := A.paths.extensions },
            components := {
              schemas := merge_map A.components.schemas B.components.schemas,
              responses := merge_map A.components.responses B.components.responses,
              parameters := merge_map A.components.parameters B.components.parameters,
              examples := merge_map A.components.examples B.components.examples,
              request_bodies := merge_map A.components.request_bodies B.components.request_bodies,
              headers := merge_map A.components.headers B.components.headers,
              security_schemes := merge_map A.components.security_schemes B.components.security_schemes,
              links := merge_map A.components.links B.components.links,
              callbacks := merge_map A.components.callbacks B.components.callbacks,
              extensions := merge_map A.components.extensions B.components.extensions },
            security := merge_vec A.security B.security
              (fun a b => a.length == b.length && a.all (fun kv => hasKey kv.1 b)),
            tags := merge_vec A.tags B.tags (fun a b => a.name == b.name),
            external_docs :=
              (match A.external_docs with
               | some ext => some { ext with extensions :=
                   (match B.external_docs with
                    | some o => merge_map ext.extensions o.extensions
                    | none => ext.extensions) }
               | none => B.external_docs),
            extensions := merge_map A.extensions B.extensions } := by
  simp only [OpenAPI.merge] at h
  cases hf : mergePathsFold A.paths.paths B.paths.paths with
  | error e => rw [hf] at h; exact Except.noConfusion h
  | ok np =>
    rw [hf] at h
    injection h with h2
    exact ⟨np, rfl, h2.symm⟩

theorem merge_isOk_eq {A B : OpenAPI} :
    exceptIsOk (OpenAPI.merge A B) =
      exceptIsOk (mergePathsFold A.paths.paths B.paths.paths) := by
  simp only [OpenAPI.merge]
  cases mergePathsFold A.paths.paths B.paths.paths <;> rfl

/-- C1 counterexample: the path `/p` is present only in the incoming
document, with a Reference entry; the claim says it is inserted unchanged
and that the reference failure arises only on shared paths, but the merge
fails with the reference-where-inline-required error. -/
theorem c1_counterexample :
    assocGet "/p" defaultOpenAPI.paths.paths = none ∧
    OpenAPI.merge defaultOpenAPI exB1 =
      .error (MergeError.new "PathItem references are not yet supported. Please opena n issue if you need this feature.") :=
  ⟨rfl, rfl⟩

/-- C1 (amended): in `merge(original, incoming)` the paths field is a union
by path string: a path present only in `incoming` with an inline entry is
inserted unchanged; but any incoming path entry that is a Reference (shared
or not) makes the merge fail, and a shared path whose original-side entry is
a Reference also makes the merge fail. -/
theorem c1_paths_union (A B : OpenAPI)
    (hN : (B.paths.paths.map Prod.fst).Nodup) :
    (∀ (p : String) (it : PathItem) (C : OpenAPI),
       assocGet p B.paths.paths = some (RefOr.Item it) →
       assocGet p A.paths.paths = none →
       OpenAPI.merge A B = .ok C →
       assocGet p C.paths.paths = some (RefOr.Item it))
    ∧ (∀ (p r : String), (p, RefOr.Reference r) ∈ B.paths.paths →
       exceptIsOk (OpenAPI.merge A B) = false)
    ∧ (∀ (p r' : String) (ib : PathItem),
       assocGet p A.paths.paths = some (RefOr.Reference r') →
       assocGet p B.paths.paths = some (RefOr.Item ib) →
       exceptIsOk (OpenAPI.merge A B) = false) := by
  refine ⟨?_, ?_, ?_⟩
  · intro p it C hB hA hok
    obtain ⟨np, hf, hC⟩ := merge_ok_inv hok
    subst hC
    exact fold_ok_insert B.paths.paths A.paths.paths np hN (assocGet_mem hB) hA hf
  · intro p r hm
    rw [merge_isOk_eq]
    exact fold_err_ref_entry B.paths.paths A.paths.paths hm
  · intro p r' ib hA hB
    rw [merge_isOk_eq]
    exact fold_err_shared_ref B.paths.paths A.paths.paths hN ib (assocGet_mem hB) hA

/-- C1 witness: merging a fresh inline path `/q` into the default document
inserts it unchanged. -/
theorem c1_witness :
    assocGet "/q" (mergeResult defaultOpenAPI exB1w).paths.paths =
      some (RefOr.Item (itemWith (some opList) [])) :=
  (c1_paths_union defaultOpenAPI exB1w (by decide)).1 "/q" (itemWith (some opList) [])
    (mergeResult defaultOpenAPI exB1w) (by decide) (by decide) (by decide)

/-- C2 counterexample: a document whose only path carries a reference
parameter; self-merge fails instead of returning the document, so the
claim's "no precondition beyond self-consistency, which holds trivially" is
false. -/
theorem c2_counterexample :
    OpenAPI.merge exA2c exA2c =
      .error (MergeError.new "Parameter references are not yet supported. Please open an issue if you need this feature.") :=
  rfl

/-- C2 (amended): `merge(A, A)` returns `Ok` with a result structurally equal
to `A`, provided the path map's keys are unique (the IndexMap invariant) and
every path entry of `A` is inline with every per-path parameter inline (the
parameter self-consistency check requires inline parameters, which is not
trivially true). -/
theorem c2_self_merge (A : OpenAPI)
    (hN : (A.paths.paths.map Prod.fst).Nodup)
    (hinl : ∀ e ∈ A.paths.paths, ∃ it, e.2 = RefOr.Item it ∧
       ∀ q ∈ it.parameters, ∃ par, q = RefOr.Item par) :
    OpenAPI.merge A A = .ok A := by
  have hf : mergePathsFold A.paths.paths A.paths.paths = .ok A.paths.paths :=
    fold_self A.paths.paths A.paths.paths hinl
      (fun e he => assocGet_of_nodup_mem hN he)
  have hsrv : merge_vec A.servers A.servers (fun a b => a.url == b.url) = A.servers :=
    merge_vec_self _ _ (fun x _ => by simp)
  have hsec : merge_vec A.security A.security
      (fun a b => a.length == b.length && a.all (fun kv => hasKey kv.1 b)) = A.security := by
    apply merge_vec_self
    intro x hx
    simp only [Bool.and_eq_true, beq_iff_eq, List.all_eq_true]
    exact ⟨trivial, fun kv hkv => hasKey_of_mem hkv⟩
  have htag : merge_vec A.tags A.tags (fun a b => a.name == b.name) = A.tags :=
    merge_vec_self _ _ (fun x _ => by simp)
  obtain ⟨o, i, s, pa, co, se, tg, ed, ex⟩ := A
  obtain ⟨iext⟩ := i
  obtain ⟨pp, pe⟩ := pa
  obtain ⟨c1, c2, c3, c4, c5, c6, c7, c8, c9, c10⟩ := co
  simp only at hf hsrv hsec htag
  cases ed with
  | none => simp [OpenAPI.merge, hf, hsrv, hsec, htag, merge_map_self]
  | some e0 =>
    obtain ⟨d0, u0, ex0⟩ := e0
    simp [OpenAPI.merge, hf, hsrv, hsec, htag, merge_map_self]

/-- C2 witness: self-merge of a concrete document with inline paths and
parameters returns the document itself. -/
theorem c2_witness : OpenAPI.merge exA2w exA2w = .ok exA2w :=
  c2_self_merge exA2w (by decide)
    (by
      intro e he
      simp only [exA2w, defaultOpenAPI, List.mem_singleton] at he
      subst he
      refine ⟨itemWith (some opList) [RefOr.Item ⟨"limit"⟩], rfl, ?_⟩
      intro q hq
      simp only [itemWith, defaultPathItem, List.mem_singleton] at hq
      subst hq
      exact ⟨⟨"limit"⟩, rfl⟩)

/-- C3: `merge_overwrite(A, B)` is exactly `merge(B, A)`: the same `Except`
value, hence the same result document when both succeed and the same error
when either fails. -/
theorem c3_merge_overwrite (A B : OpenAPI) :
    OpenAPI.merge_overwrite A B = OpenAPI.merge B A := rfl

/-- C4 counterexample: the incoming document lists the same url twice; the
merge succeeds and the result repeats that url, so "no url occurs twice in
the result" fails. -/
theorem c4_counterexample :
    exceptIsOk (OpenAPI.merge defaultOpenAPI exB4) = true ∧
    ¬ ((mergeResult defaultOpenAPI exB4).servers.map Server.url).Nodup := by
  exact ⟨rfl, by decide⟩

/-- C4 (amended): in a successful merge the result's servers are exactly
`A`'s servers (unchanged, A's variants winning since identity is url alone)
followed by those servers of `B` whose url does not occur in `A`, in `B`'s
relative order; no url occurs twice provided each side's own urls are
pairwise distinct. -/
theorem c4_servers (A B C : OpenAPI) (hok : OpenAPI.merge A B = .ok C) :
    C.servers = A.servers ++
      B.servers.filter (fun s => !(A.servers.any (fun r => s.url == r.url)))
    ∧ ((A.servers.map Server.url).Nodup → (B.servers.map Server.url).Nodup →
       (C.servers.map Server.url).Nodup) := by
  obtain ⟨np, hf, hC⟩ := merge_ok_inv hok
  subst hC
  constructor
  · rfl
  · intro hA hB
    show ((A.servers ++
      B.servers.filter (fun s => !(A.servers.any (fun r => s.url == r.url)))).map
        Server.url).Nodup
    rw [List.map_append, List.nodup_append]
    refine ⟨hA, ?_, ?_⟩
    · exact List.Sublist.nodup (List.Sublist.map _ (List.filter_sublist _)) hB
    · intro u hu hv
      obtain ⟨sa, hsa, hua⟩ := List.mem_map.mp hu
      obtain ⟨sb, hsb, hub⟩ := List.mem_map.mp hv
      obtain ⟨hsbB, hfb⟩ := List.mem_filter.mp hsb
      have hfb' : ¬ (A.servers.any (fun r => sb.url == r.url) = true) := by
        simp only [Bool.not_eq_true'] at hfb
        simp [hfb]
      apply hfb'
      rw [List.any_eq_true]
      exact ⟨sa, hsa, by simp [hub, hua]⟩

/-- C4 witness: merging two documents with one overlapping url and distinct
urls on each side yields a duplicate-free url list. -/
theorem c4_witness :
    ((mergeResult exA4w exB4w).servers.map Server.url).Nodup :=
  (c4_servers exA4w exB4w (mergeResult exA4w exB4w) (by decide)).2
    (by decide) (by decide)

/-- C5 counterexample: documents sharing path `/b` with parameter lists of
different lengths, but whose earlier shared path `/a` has a parameter-name
mismatch; the merge fails with the name-mismatch error, not the
length-mismatch error the claim promises. -/
theorem c5_counterexample :
    assocGet "/b" exA5c.paths.paths =
      some (RefOr.Item (itemWith none [RefOr.Item ⟨"limit"⟩])) ∧
    assocGet "/b" exB5c.paths.paths =
      some (RefOr.Item (itemWith none [RefOr.Item ⟨"limit"⟩, RefOr.Item ⟨"offset"⟩])) ∧
    (itemWith none [RefOr.Item ⟨"limit"⟩]).parameters.length ≠
      (itemWith none [RefOr.Item ⟨"limit"⟩, RefOr.Item ⟨"offset"⟩]).parameters.length ∧
    OpenAPI.merge exA5c exB5c =
      .error (MergeError.new "PathItem /a parameter x does not have the same name as y") := by
  refine ⟨rfl, rfl, by decide, rfl⟩

/-- C5 (amended): when `A` and `B` share a path that is inline on both sides
and whose parameter lists have different lengths, `merge(A, B)` fails with a
merge error and produces no result document (the reported message is the
length-mismatch one only when no earlier-iterated incoming path violates
another rule first). -/
theorem c5_length_mismatch (A B : OpenAPI) (p : String) (ia ib : PathItem)
    (hN : (B.paths.paths.map Prod.fst).Nodup)
    (hA : assocGet p A.paths.paths = some (RefOr.Item ia))
    (hB : assocGet p B.paths.paths = some (RefOr.Item ib))
    (hlen : ia.parameters.length ≠ ib.parameters.length) :
    exceptIsOk (OpenAPI.merge A B) = false := by
  cases hm : OpenAPI.merge A B with
  | error e => rfl
  | ok C =>
    obtain ⟨np, hf, hC⟩ := merge_ok_inv hm
    obtain ⟨m, hmi, _⟩ :=
      fold_ok_shared B.paths.paths A.paths.paths np hN (assocGet_mem hB) hA hf
    exact absurd (mergePathItems_ok_inv hmi).2.1 hlen

/-- C5 witness: the spec's scenario, `/pets` with parameters `[limit]`
against `[limit, offset]`, fails to merge. -/
theorem c5_witness : exceptIsOk (OpenAPI.merge exA5w exB5w) = false :=
  c5_length_mismatch exA5w exB5w "/pets" (itemWith none [RefOr.Item ⟨"limit"⟩])
    (itemWith none [RefOr.Item ⟨"limit"⟩, RefOr.Item ⟨"offset"⟩])
    (by decide) (by decide) (by decide) (by decide)

/-- C6: for every shared inline path in a successful merge, the result's
per-path parameter list is exactly the original's, element for element and
in order; the incoming list is only validated (equal length, every
positional pair inline on both sides, equal names) and never written into
the result. -/
theorem c6_parameters_frame (A B C : OpenAPI) (p : String) (ia ib : PathItem)
    (hN : (B.paths.paths.map Prod.fst).Nodup)
    (hA : assocGet p A.paths.paths = some (RefOr.Item ia))
    (hB : assocGet p B.paths.paths = some (RefOr.Item ib))
    (hok : OpenAPI.merge A B = .ok C) :
    ∃ m, assocGet p C.paths.paths = some (RefOr.Item m) ∧
      m.parameters = ia.parameters ∧
      ia.parameters.length = ib.parameters.length ∧
      ∀ ab ∈ ia.parameters.zip ib.parameters,
        ∃ pa pb, ab.1 = RefOr.Item pa ∧ ab.2 = RefOr.Item pb ∧ pa.name = pb.name := by
  obtain ⟨np, hf, hC⟩ := merge_ok_inv hok
  subst hC
  obtain ⟨m, hmi, hget⟩ :=
    fold_ok_shared B.paths.paths A.paths.paths np hN (assocGet_mem hB) hA hf
  obtain ⟨hmeq, hlen, hck⟩ := mergePathItems_ok_inv hmi
  refine ⟨m, hget, ?_, hlen, checkParams_ok_mem p _ hck⟩
  rw [hmeq]

/-- C6 witness: a concrete shared path keeps the original's parameter list
in the merged document. -/
theorem c6_witness :
    ((assocGet "/pets" (mergeResult exA6w exB6w).paths.paths).bind RefOr.as_item).map
      PathItem.parameters = some [RefOr.Item ⟨"limit"⟩] := by
  obtain ⟨m, hget, hpar, _, _⟩ := c6_parameters_frame exA6w exB6w
    (mergeResult exA6w exB6w) "/pets"
    (itemWith (some opList) [RefOr.Item ⟨"limit"⟩])
    (itemWith none [RefOr.Item ⟨"limit"⟩])
    (by decide) (by decide) (by decide) (by decide)
  rw [hget]
  simp [RefOr.as_item, hpar, itemWith, defaultPathItem]

/-- C7: for every shared inline path in a successful merge, each of the
eight method slots of the merged item is `option_or` of the original's and
incoming's corresponding slots — original's operation when occupied,
incoming's when only incoming's is occupied, empty when both are — each
slot decided independently of all other slots and fields. -/
theorem c7_method_slots (A B C : OpenAPI) (p : String) (ia ib : PathItem)
    (hN : (B.paths.paths.map Prod.fst).Nodup)
    (hA : assocGet p A.paths.paths = some (RefOr.Item ia))
    (hB : assocGet p B.paths.paths = some (RefOr.Item ib))
    (hok : OpenAPI.merge A B = .ok C) :
    ∃ m, assocGet p C.paths.paths = some (RefOr.Item m) ∧
      m.get = option_or ia.get ib.get ∧
      m.put = option_or ia.put ib.put ∧
      m.post = option_or ia.post ib.post ∧
      m.delete = option_or ia.delete ib.delete ∧
      m.options = option_or ia.options ib.options ∧
      m.head = option_or ia.head ib.head ∧
      m.patch = option_or ia.patch ib.patch ∧
      m.trace = option_or ia.trace ib.trace := by
  obtain ⟨np, hf, hC⟩ := merge_ok_inv hok
  subst hC
  obtain ⟨m, hmi, hget⟩ :=
    fold_ok_shared B.paths.paths A.paths.paths np hN (assocGet_mem hB) hA hf
  obtain ⟨hmeq, _, _⟩ := mergePathItems_ok_inv hmi
  subst hmeq
  exact ⟨_, hget, rfl, rfl, rfl, rfl, rfl, rfl, rfl, rfl⟩

/-- C7 witness: the spec's scenario — A's `/pets` has only GET `listPets`,
B's `/pets` has only POST `createPet`; the merged `/pets` exposes both. -/
theorem c7_witness :
    ((assocGet "/pets" (mergeResult exA7 exB7).paths.paths).bind RefOr.as_item).map
      PathItem.get = some (some opList) ∧
    ((assocGet "/pets" (mergeResult exA7 exB7).paths.paths).bind RefOr.as_item).map
      PathItem.post = some (some opCreate) := by
  obtain ⟨m, hget, hg, _, hp, _⟩ := c7_method_slots exA7 exB7 (mergeResult exA7 exB7)
    "/pets" { defaultPathItem with get := some opList }
    { defaultPathItem with post := some opCreate }
    (by decide) (by decide) (by decide) (by decide)
  constructor
  · rw [hget]
    simp [RefOr.as_item, hg, option_or, defaultPathItem]
  · rw [hget]
    simp [RefOr.as_item, hp, option_or, defaultPathItem]

/-- C8: all three traversal modes of a `PathItem` — borrowing, mutable and
owning — yield exactly the occupied method slots, each paired with its
method name, in the fixed order get, put, post, delete, options, head,
patch, trace, for every `PathItem` however constructed. -/
theorem c8_traversal_order (p : PathItem) :
    p.iter = canonicalTraversal p ∧
    p.iterMutPairs = canonicalTraversal p ∧
    p.intoIterPairs = canonicalTraversal p :=
  ⟨rfl, rfl, rfl⟩

theorem RefOr.as_mut_eq {T : Type} (r : RefOr T) : r.as_mut = r.as_item := by
  cases r <;> rfl

theorem operations_mut_eq (api : OpenAPI) :
    api.operations_mut = api.operations.map (fun t => (t.1, t.2.1, t.2.2.1)) := by
  simp only [OpenAPI.operations_mut, OpenAPI.operations, RefOr.as_mut_eq]
  rw [List.map_flatMap]
  congr 1
  funext pit
  rw [List.map_map]
  rfl

theorem findOp_eq (oid : String) :
    ∀ (l : List (String × String × Operation × PathItem)),
    (∀ t ∈ l, ∃ s, t.2.2.1.operation_id = some s) →
    findOp oid l = .ok ((l.find? (fun t => t.2.2.1.operation_id == some oid)).map
      (fun t => (t.2.2.1, t.2.2.2))) := by
  intro l
  induction l with
  | nil => intro _; rfl
  | cons t rest ih =>
    intro h
    obtain ⟨s, hs⟩ := h t (List.mem_cons_self _ _)
    by_cases he : s = oid
    · rw [List.find?_cons_of_pos _ (by simp [hs, he])]
      simp only [findOp, hs]
      rw [if_pos he]
      rfl
    · rw [List.find?_cons_of_neg _ (by simp [hs, he])]
      simp only [findOp, hs]
      rw [if_neg he]
      exact ih (fun t2 h2 => h t2 (List.mem_cons_of_mem _ h2))

theorem findOpMut_eq (oid : String) :
    ∀ (l : List (String × String × Operation)),
    (∀ t ∈ l, ∃ s, t.2.2.operation_id = some s) →
    findOpMut oid l = .ok ((l.find? (fun t => t.2.2.operation_id == some oid)).map
      (fun t => t.2.2)) := by
  intro l
  induction l with
  | nil => intro _; rfl
  | cons t rest ih =>
    intro h
    obtain ⟨s, hs⟩ := h t (List.mem_cons_self _ _)
    by_cases he : s = oid
    · rw [List.find?_cons_of_pos _ (by simp [hs, he])]
      simp only [findOpMut, hs]
      rw [if_pos he]
      rfl
    · rw [List.find?_cons_of_neg _ (by simp [hs, he])]
      simp only [findOpMut, hs]
      rw [if_neg he]
      exact ih (fun t2 h2 => h t2 (List.mem_cons_of_mem _ h2))

/-- C9: under the precondition that every operation reachable via
`operations()` carries a non-empty `operationId`, `get_operation(id)` and
`get_operation_mut(id)` never fault and return the first operation, in
traversal order over inline path items, whose `operationId` equals `id`
(nothing when none matches). -/
theorem c9_get_operation (api : OpenAPI) (oid : String)
    (h : ∀ t ∈ api.operations, ∃ s, t.2.2.1.operation_id = some s ∧ s ≠ "") :
    api.get_operation oid =
      .ok ((api.operations.find? (fun t => t.2.2.1.operation_id == some oid)).map
        (fun t => (t.2.2.1, t.2.2.2))) ∧
    api.get_operation_mut oid =
      .ok ((api.operations_mut.find? (fun t => t.2.2.operation_id == some oid)).map
        (fun t => t.2.2)) := by
  constructor
  · exact findOp_eq oid api.operations
      (fun t ht => Exists.elim (h t ht) (fun s hs => ⟨s, hs.1⟩))
  · apply findOpMut_eq oid api.operations_mut
    intro t ht
    rw [operations_mut_eq] at ht
    obtain ⟨t', ht', rfl⟩ := List.mem_map.mp ht
    exact Exists.elim (h t' ht') (fun s hs => ⟨s, hs.1⟩)

/-- C9 witness: a concrete document whose operations all carry non-empty
identifiers; lookup returns the first matching operation on both the
borrowing and mutable scans. -/
theorem c9_witness :
    exApi9.get_operation "createPet" =
      .ok ((exApi9.operations.find? (fun t => t.2.2.1.operation_id == some "createPet")).map
        (fun t => (t.2.2.1, t.2.2.2))) ∧
    exApi9.get_operation_mut "createPet" =
      .ok ((exApi9.operations_mut.find? (fun t => t.2.2.operation_id == some "createPet")).map
        (fun t => t.2.2)) := by
  apply c9_get_operation exApi9 "createPet"
  intro t ht
  have hops : exApi9.operations =
      [("/pets", "get", opList,
         { defaultPathItem with get := some opList, post := some opCreate }),
       ("/pets", "post", opCreate,
         { defaultPathItem with get := some opList, post := some opCreate })] := rfl
  rw [hops] at ht
  rcases List.mem_cons.mp ht with he | ht2
  · subst he
    exact ⟨"listPets", rfl, by decide⟩
  · rcases List.mem_cons.mp ht2 with he | ht3
    · subst he
      exact ⟨"createPet", rfl, by decide⟩
    · simp at ht3

theorem replaceSlot_supported {m : Method} (hm : m.isSupported = true)
    (it : PathItem) (op : Operation) :
    replaceSlot it m op = .ok (m.slot it, m.setSlot it op) := by
  cases m with
  | GET => rfl
  | PUT => rfl
  | POST => rfl
  | DELETE => rfl
  | PATCH => rfl
  | HEAD => rfl
  | OPTIONS => rfl
  | TRACE => rfl
  | CONNECT => simp [Method.isSupported] at hm
  | Extension s => simp [Method.isSupported] at hm

theorem replaceSlot_unsupported {m : Method} (hm : m.isSupported = false)
    (it : PathItem) (op : Operation) :
    replaceSlot it m op = .error ("Unsupported method: " ++ reprMethod m) := by
  cases m with
  | GET => simp [Method.isSupported] at hm
  | PUT => simp [Method.isSupported] at hm
  | POST => simp [Method.isSupported] at hm
  | DELETE => simp [Method.isSupported] at hm
  | PATCH => simp [Method.isSupported] at hm
  | HEAD => simp [Method.isSupported] at hm
  | OPTIONS => simp [Method.isSupported] at hm
  | TRACE => simp [Method.isSupported] at hm
  | CONNECT => rfl
  | Extension s => rfl

theorem insertOpList_spec (path : String) (m : Method) (op : Operation) :
    ∀ (l : List (String × RefOr PathItem)),
    (∀ r, assocGet path l = some r → ∃ it, r = RefOr.Item it) →
    (m.isSupported = true →
      ∃ l', insertOpList path m op l = .ok (m.slot (currentItemL path l), l') ∧
        assocGet path l' = some (RefOr.Item (m.setSlot (currentItemL path l) op)))
    ∧ (m.isSupported = false →
      insertOpList path m op l = .error ("Unsupported method: " ++ reprMethod m)) := by
  intro l
  induction l with
  | nil =>
    intro _
    constructor
    · intro hm
      refine ⟨[(path, RefOr.Item (m.setSlot defaultPathItem op))], ?_, ?_⟩
      · simp only [insertOpList, replaceSlot_supported hm]
        rfl
      · simp only [assocGet, if_pos rfl]
        rfl
    · intro hm
      simp only [insertOpList, replaceSlot_unsupported hm]
  | cons kv rest ih =>
    intro h
    obtain ⟨k1, v1⟩ := kv
    by_cases hk : k1 = path
    · subst hk
      obtain ⟨it, hv⟩ := h v1 (by simp [assocGet])
      subst hv
      have hcur : currentItemL k1 ((k1, RefOr.Item it) :: rest) = it := by
        simp [currentItemL, assocGet]
      constructor
      · intro hm
        refine ⟨(k1, RefOr.Item (m.setSlot it op)) :: rest, ?_, ?_⟩
        · simp [insertOpList, replaceSlot_supported hm, hcur]
        · simp [assocGet, hcur]
      · intro hm
        simp [insertOpList, replaceSlot_unsupported hm]
    · have h' : ∀ r, assocGet path rest = some r → ∃ it, r = RefOr.Item it := by
        intro r hr
        apply h r
        simp [assocGet, hk, hr]
      obtain ⟨ih1, ih2⟩ := ih h'
      have hcur : currentItemL path ((k1, v1) :: rest) = currentItemL path rest := by
        simp [currentItemL, assocGet, hk]
      constructor
      · intro hm
        obtain ⟨l', hins, hget⟩ := ih1 hm
        refine ⟨(k1, v1) :: l', ?_, ?_⟩
        · simp only [insertOpList, if_neg hk, hins, hcur]
        · simp [assocGet, hk, hget, hcur]
      · intro hm
        simp only [insertOpList, if_neg hk, ih2 hm]

/-- C10: `Paths::insert_operation` is total only over the eight modelled
HTTP methods: for a path whose entry is absent or inline, each of get, put,
post, delete, options, head, patch, trace replaces that method's slot and
returns the previous occupant (none if empty), while any other method (such
as CONNECT) hits the unsupported-method panic, modelled as an error. -/
theorem c10_insert_operation (ps : Paths) (path : String) (m : Method)
    (op : Operation)
    (h : ∀ r, assocGet path ps.paths = some r → ∃ it, r = RefOr.Item it) :
    (m.isSupported = true →
      ∃ ps', Paths.insert_operation ps path m op =
          .ok (m.slot (Paths.currentInline ps path), ps') ∧
        assocGet path ps'.paths =
          some (RefOr.Item (m.setSlot (Paths.currentInline ps path) op)))
    ∧ (m.isSupported = false →
      Paths.insert_operation ps path m op =
        .error ("Unsupported method: " ++ reprMethod m)) := by
  obtain ⟨hs, hu⟩ := insertOpList_spec path m op ps.paths h
  have hcur : Paths.currentInline ps path = currentItemL path ps.paths := rfl
  constructor
  · intro hm
    obtain ⟨l', hins, hget⟩ := hs hm
    refine ⟨{ ps with paths := l' }, ?_, ?_⟩
    · simp only [Paths.insert_operation, hins, hcur]
    · simp only [hcur]
      exact hget
  · intro hm
    simp only [Paths.insert_operation, hu hm]

/-- C10 witness: inserting with GET on an inline entry succeeds and returns
the previous occupant, while CONNECT is rejected. -/
theorem c10_witness :
    (exceptValue (Paths.insert_operation exPs10 "/p" Method.GET opCreate)).map
      Prod.fst = some (some opList) ∧
    Paths.insert_operation exPs10 "/p" Method.CONNECT opCreate =
      .error ("Unsupported method: " ++ reprMethod Method.CONNECT) := by
  have hhyp : ∀ r, assocGet "/p" exPs10.paths = some r → ∃ it, r = RefOr.Item it := by
    intro r hr
    simp [exPs10, assocGet] at hr
    exact ⟨{ defaultPathItem with get := some opList }, hr.symm⟩
  constructor
  · obtain ⟨ps', hins, _⟩ :=
      (c10_insert_operation exPs10 "/p" Method.GET opCreate hhyp).1 rfl
    have hslot : Method.GET.slot (exPs10.currentInline "/p") = some opList := by decide
    rw [hins, hslot]
    rfl
  · exact (c10_insert_operation exPs10 "/p" Method.CONNECT opCreate hhyp).2 rfl
